import Mathlib

/-
Shallow embedding of the dual-representation integer core of the Koka runtime
(`src/cruntime/include/runtime/integer.h`).

An integer value is a machine word (`int_t`, modelled as `Int` under its signed
interpretation): either a small integer `n` encoded as `boxed(n) = 4*n + 1`
(low bit set), or a pointer to a heap bigint (low two bits `00`, i.e. the word
is divisible by 4).  The embedding fixes the primary 64-bit GNUC platform of
the header (`INTPTR_SIZE == 8`, `SMALLINT_BITS == 32`, builtin overflow
primitives); the generic (non-builtin) overflow checks of the `#else` branch
are embedded separately, parametrised by the word width `W` and the small
width `B`.

External generic operations (`integer_add_generic`, `integer_cmp_generic`, ...)
are declared but not defined in the header; calls into them are modelled as
explicit result constructors recording which generic operation is invoked and
with which (unmodified) operand words.
-/

namespace Koka

/-! ### Platform constants (64-bit platform: `INTPTR_SIZE == 8`) -/

def INTPTR_BITS : Nat := 64

def SMALLINT_BITS : Nat := 32

/-- `INTPTR_MAX` for a 64-bit `intptr_t`. -/
def INTPTR_MAX : Int := 2 ^ 63 - 1

/-- `#define SMALLINT_MAX ((int_t)(((uint_t)INTPTR_MAX >> (INTPTR_BITS - SMALLINT_BITS)) >> 2))`;
the unsigned shifts on the nonnegative `INTPTR_MAX` are divisions by powers of two. -/
def SMALLINT_MAX : Int := (INTPTR_MAX / 2 ^ (INTPTR_BITS - SMALLINT_BITS)) / 2 ^ 2

/-- `#define SMALLINT_MIN (-SMALLINT_MAX - 1)` -/
def SMALLINT_MIN : Int := -SMALLINT_MAX - 1

theorem SMALLINT_MAX_eq : SMALLINT_MAX = 536870911 := by decide

theorem SMALLINT_MIN_eq : SMALLINT_MIN = -536870912 := by decide

/-! ### Machine-word helpers

`int_t` values are modelled as unbounded `Int` together with explicit
wrapping where the C code truncates; low-bit masks of a two's-complement
word depend only on the word's residue modulo a power of two, so they are
modelled with `%` (Euclidean `Int.emod`, which is nonnegative). -/

/-- Truncation of a word to a `bits`-wide signed two's-complement value
(the effect of a C cast such as `(smallint_t)h`). -/
def wrap (bits : Nat) (z : Int) : Int := (z + 2 ^ (bits - 1)) % 2 ^ bits - 2 ^ (bits - 1)

/-- Cast of a word to the unsigned `uint_t` of width `bits` (value mod `2^bits`). -/
def toUnsigned (bits : Nat) (z : Int) : Int := z % 2 ^ bits

/-- `sar(z,k)`: arithmetic shift right of a signed word, i.e. floor division
by `2^k` (Euclidean division by a positive power of two). -/
def sar (z : Int) (k : Nat) : Int := z / 2 ^ k

/-- `shr(z,k)` as used in `integer_div_small`/`integer_mod_small` re-tags by
scaling with `2^k` (its definition lives in `runtime.h`, which is not part of
the sources; the derivation comments above those functions fix its effect:
`shr(i/j, 2)|1 = 4*(i/j) + 1 = boxed(i/j)`). -/
def shl (z : Int) (k : Nat) : Int := z * 2 ^ k

/-- `w ^ 1` on a two's-complement word: flip bit 0. -/
def xor1 (w : Int) : Int := if w % 2 = 0 then w + 1 else w - 1

/-- `w ^ 3` on a two's-complement word: flip bits 0 and 1
(the low two bits `b = w mod 4` become `3 - b`). -/
def xor3 (w : Int) : Int := w + 3 - 2 * (w % 4)

/-- `w | 1` on a two's-complement word: set bit 0. -/
def or1 (w : Int) : Int := if w % 2 = 0 then w + 1 else w

/-- `(w & 2) != 0`: test bit 1 of a two's-complement word. -/
def testBit1 (w : Int) : Bool := decide (2 ≤ w % 4)

/-- `(w & 0x08) != 0`: test bit 3 of a two's-complement word. -/
def testBit3 (w : Int) : Bool := decide (8 ≤ w % 16)

/-! ### Encoding and tag predicates -/

/-- `box_int(n)`: the header's encoding comment fixes `boxed(n) == 4*n + 1`. -/
def box_int (n : Int) : Int := 4 * n + 1

/-- `unbox_int(w)`: decode a boxed small int by arithmetic shift right by 2. -/
def unbox_int (w : Int) : Int := sar w 2

/-- `is_int_fast(i)` / `is_smallint(i)`: a boxed small int has low bits `01`
(low bit set), a bigint pointer has low bits `00` (comment table in
`integer_add`). -/
def is_smallint (w : Int) : Bool := decide (w % 2 = 1)

/-- `are_smallints(i,j)`: `((i&j)&1)!=0`, i.e. bit 0 is set in both words. -/
def are_smallints (x y : Int) : Bool := decide (x % 2 = 1 ∧ y % 2 = 1)

/-- `integer_from_small(i)`: construct a boxed small int (precondition: in range). -/
def integer_from_small (i : Int) : Int := box_int i

/-- A valid integer word: either a boxed small int whose decoded value is in
the platform's small range, or a bigint pointer word (low two bits `00`). -/
def ValidInt (w : Int) : Prop :=
  (w % 4 = 1 ∧ SMALLINT_MIN ≤ unbox_int w ∧ unbox_int w ≤ SMALLINT_MAX) ∨ w % 4 = 0

theorem box_int_valid (n : Int) (h1 : SMALLINT_MIN ≤ n) (h2 : n ≤ SMALLINT_MAX) :
    ValidInt (box_int n) := by
  left
  refine ⟨by unfold box_int; omega, ?_, ?_⟩ <;>
    · show _
      unfold unbox_int sar box_int
      omega

/-! ### Builtin overflow-checked primitives (`__GNUC__ && SMALLINT_BITS >= 32`)

`__builtin_add_overflow((smallint_t)h, (smallint_t)y, &i)` first truncates
both operands to the 32-bit `smallint_t`, computes the infinitely precise
result of the operation on the truncated operands, stores it wrapped to 32
bits in `i` (afterwards sign-extended into `*r`), and returns whether the
precise result did not fit `smallint_t`.  Each model returns the pair
`(*r, overflow flag)`. -/

def smallint_add_ovf (h y : Int) : Int × Bool :=
  let a := wrap 32 h
  let b := wrap 32 y
  (wrap 32 (a + b), decide (wrap 32 (a + b) ≠ a + b))

def smallint_sub_ovf (h y : Int) : Int × Bool :=
  let a := wrap 32 h
  let b := wrap 32 y
  (wrap 32 (a - b), decide (wrap 32 (a - b) ≠ a - b))

def smallint_mul_ovf (h y : Int) : Int × Bool :=
  let a := wrap 32 h
  let b := wrap 32 y
  (wrap 32 (a * b), decide (wrap 32 (a * b) ≠ a * b))

/-! ### Generic (non-builtin) overflow detection, parametrised by platform

The `#else` branch of the header: `W` is the native word width
(`int_t`/`uint_t`), `B` is `SMALLINT_BITS`.  The operation is performed at
full native width (wrapping at `W` bits), the result is stored in `*r`, and
overflow is signalled when the bits above the small-value width are not a
uniform sign-extension run:
`uint_t s = (uint_t)sar(z, SMALLINT_BITS - 1); return (s + 1 > 1);`
(the `+ 1` wraps in `uint_t`). -/

def smallint_add_ovf_generic (W B : Nat) (x y : Int) : Int × Bool :=
  let z := wrap W (x + y)
  let s := toUnsigned W (sar z (B - 1))
  (z, decide (1 < (s + 1) % 2 ^ W))

def smallint_sub_ovf_generic (W B : Nat) (x y : Int) : Int × Bool :=
  let z := wrap W (x - y)
  let s := toUnsigned W (sar z (B - 1))
  (z, decide (1 < (s + 1) % 2 ^ W))

def smallint_mul_ovf_generic (W B : Nat) (x y : Int) : Int × Bool :=
  let z := wrap W (x * y)
  let s := toUnsigned W (sar z (B - 1))
  (z, decide (1 < (s + 1) % 2 ^ W))

/-! ### Fast-path arithmetic on boxed words -/

/-- Result of an inlined integer operation: either an encoded word produced on
the fast path, or a tail call into one of the external generic operations
(`integer.c` is not part of the sources), recording the exact operand words
handed over. -/
inductive IRes where
  | ok (w : Int)
  | addGeneric (x y : Int)
  | subGeneric (x y : Int)
  | mulGeneric (x y : Int)
  | negGeneric (x : Int)
  | sqrGeneric (x : Int)
  deriving DecidableEq

/-- `integer_add_small`: `boxed(n) + (boxed(m) ^ 1)` with overflow check;
on overflow fall back to `integer_add_generic(x, y)`. -/
def integer_add_small (x y : Int) : IRes :=
  let r := smallint_add_ovf x (xor1 y)
  if r.2 = false then IRes.ok r.1 else IRes.addGeneric x y

/-- `integer_add`: add the two encoded words directly, then check that no
overflow occurred and that the low two bits of the sum are `10`
(`(i&2)!=0`); on success return `i ^ 3` (i.e. `i - 1`). -/
def integer_add (x y : Int) : IRes :=
  let r := smallint_add_ovf x y
  if r.2 = false ∧ testBit1 r.1 = true then IRes.ok (xor3 r.1) else IRes.addGeneric x y

/-- `integer_sub_small`: `boxed(n) - (boxed(m) ^ 1)` with overflow check. -/
def integer_sub_small (x y : Int) : IRes :=
  let r := smallint_sub_ovf x (xor1 y)
  if r.2 = false then IRes.ok r.1 else IRes.subGeneric x y

/-- `integer_sub`: dispatch on `are_smallints`. -/
def integer_sub (x y : Int) : IRes :=
  if are_smallints x y then integer_sub_small x y else IRes.subGeneric x y

/-- `integer_mul_small`: multiply `sar(x,1)` and `sar(y,1)` with overflow
check, then re-tag with `|1`. -/
def integer_mul_small (x y : Int) : IRes :=
  let i := sar x 1
  let j := sar y 1
  let r := smallint_mul_ovf i j
  if r.2 = false then IRes.ok (or1 r.1) else IRes.mulGeneric x y

/-- `integer_mul`: dispatch on `are_smallints`. -/
def integer_mul (x y : Int) : IRes :=
  if are_smallints x y then integer_mul_small x y else IRes.mulGeneric x y

/-- `integer_neg`: on a small argument, `integer_sub_small(box_int(0), x)`;
otherwise `integer_neg_generic(x)`. -/
def integer_neg (x : Int) : IRes :=
  if is_smallint x then integer_sub_small (box_int 0) x else IRes.negGeneric x

/-- The uniform dispatch rule of the specification for addition: test
`are_smallints` first; true means the fast path, false means the generic
operation on the unmodified operands.  (This definition follows the
specification's words; `integer_add` above follows the source.) -/
def integer_add_dispatch (x y : Int) : IRes :=
  if are_smallints x y then integer_add_small x y else IRes.addGeneric x y

/-! ### Division and modulus -/

/-- Result of `integer_div`/`integer_mod`: a fast-path word, a tail call into
the generic operation, or the execution of a native division with a zero
divisor on the fast path — undefined behavior in C, which the model keeps
apart as its own outcome. -/
inductive DivRes where
  | ok (w : Int)
  | divGeneric (x y : Int)
  | modGeneric (x y : Int)
  | divModGeneric (x y : Int)
  | nativeDivByZero (x y : Int)
  deriving DecidableEq

/-- `integer_div_small`: untag by `sar(..,1)`, native truncated division
`i/j`, re-tag (`shr(i/j,2)|1`, i.e. `4*(i/j) + 1`).  The native `/` has no
defined result for `j == 0`. -/
def integer_div_small (x y : Int) : DivRes :=
  let i := sar x 1
  let j := sar y 1
  if j = 0 then DivRes.nativeDivByZero x y else DivRes.ok (or1 (shl (Int.tdiv i j) 2))

/-- `integer_mod_small`: untag, native remainder `i%j`, re-tag
(`shr(i%j,1)|1`, i.e. `2*(i%j) + 1`). -/
def integer_mod_small (x y : Int) : DivRes :=
  let i := sar x 1
  let j := sar y 1
  if j = 0 then DivRes.nativeDivByZero x y else DivRes.ok (or1 (shl (Int.tmod i j) 1))

/-- `integer_div_mod_small`: combined quotient and stored `*mod`. -/
def integer_div_mod_small (x y : Int) : DivRes × Option Int :=
  let i := sar x 1
  let j := sar y 1
  if j = 0 then (DivRes.nativeDivByZero x y, none)
  else (DivRes.ok (or1 (shl (Int.tdiv i j) 2)), some (or1 (shl (Int.tmod i j) 1)))

/-- `integer_div`: dispatch on `are_smallints` only — no zero-divisor test. -/
def integer_div (x y : Int) : DivRes :=
  if are_smallints x y then integer_div_small x y else DivRes.divGeneric x y

/-- `integer_mod`: dispatch on `are_smallints` only — no zero-divisor test. -/
def integer_mod (x y : Int) : DivRes :=
  if are_smallints x y then integer_mod_small x y else DivRes.modGeneric x y

/-- `integer_div_mod`: dispatch on `are_smallints` only. -/
def integer_div_mod (x y : Int) : DivRes × Option Int :=
  if are_smallints x y then integer_div_mod_small x y else (DivRes.divModGeneric x y, none)

/-! ### Comparisons

The encoded words are compared directly as signed native words.  The header
leaves `integer_t`'s underlying scalar to `box.h` (not part of the sources);
the specification states that direct comparison of encoded words preserves
the numeric order, which fixes the signed reading used here.  On a big
operand the work is deferred to `integer_cmp_generic(x, y)`; the model
records the operand words handed to it. -/

/-- `integer_cmp`: `(x == y ? 0 : (x > y ? 1 : -1))` on two small words. -/
def integer_cmp (x y : Int) : Sum Int (Int × Int) :=
  if are_smallints x y then Sum.inl (if x = y then 0 else if x > y then 1 else -1)
  else Sum.inr (x, y)

def integer_lt (x y : Int) : Sum Bool (Int × Int) :=
  if are_smallints x y then Sum.inl (decide (x < y)) else Sum.inr (x, y)

def integer_lte (x y : Int) : Sum Bool (Int × Int) :=
  if are_smallints x y then Sum.inl (decide (x ≤ y)) else Sum.inr (x, y)

def integer_gt (x y : Int) : Sum Bool (Int × Int) :=
  if are_smallints x y then Sum.inl (decide (x > y)) else Sum.inr (x, y)

def integer_gte (x y : Int) : Sum Bool (Int × Int) :=
  if are_smallints x y then Sum.inl (decide (x ≥ y)) else Sum.inr (x, y)

def integer_eq (x y : Int) : Sum Bool (Int × Int) :=
  if are_smallints x y then Sum.inl (decide (x = y)) else Sum.inr (x, y)

def integer_neq (x y : Int) : Sum Bool (Int × Int) :=
  if are_smallints x y then Sum.inl (decide (x ≠ y)) else Sum.inr (x, y)

/-! ### Consuming predicates

Each predicate returns its boolean result together with the reference-count
delta it applies to its argument (`integer_decref` is `-1`; the small path
never touches a count). -/

/-- `integer_is_zero`: small path compares against `integer_from_small(0)`;
big path decrefs the argument and returns false. -/
def integer_is_zero (w : Int) : Bool × Int :=
  if is_smallint w then (decide (w = integer_from_small 0), 0) else (false, -1)

/-- `integer_is_one`: small path compares against `integer_from_small(1)`. -/
def integer_is_one (w : Int) : Bool × Int :=
  if is_smallint w then (decide (w = integer_from_small 1), 0) else (false, -1)

/-- `integer_is_minus_one`: small path compares against `integer_from_small(-1)`. -/
def integer_is_minus_one (w : Int) : Bool × Int :=
  if is_smallint w then (decide (w = integer_from_small (-1)), 0) else (false, -1)

/-- Result of a parity query: a small-path boolean, or the value of
`integer_is_even_generic(w)` (possibly negated by the caller). -/
inductive ParityRes where
  | val (b : Bool)
  | evenGeneric (w : Int)
  | notEvenGeneric (w : Int)
  deriving DecidableEq

/-- `integer_is_even`: small path returns `(x & 0x08) == 0`. -/
def integer_is_even (w : Int) : ParityRes :=
  if is_smallint w then ParityRes.val (!testBit3 w) else ParityRes.evenGeneric w

/-- `integer_is_odd`: small path returns `(x & 0x08) != 0`; big path returns
the negated generic parity. -/
def integer_is_odd (w : Int) : ParityRes :=
  if is_smallint w then ParityRes.val (testBit3 w) else ParityRes.notEvenGeneric w

/-! ### General construction -/

/-- Result of `integer_from_int`: a small encoded word, or a call into
`integer_from_big(i, ctx)`. -/
inductive FromIntRes where
  | small (w : Int)
  | bigCall (i : Int)
  deriving DecidableEq

/-- `integer_from_int(i)`: choose the small constructor exactly when
`SMALLINT_MIN <= i && i <= SMALLINT_MAX`. -/
def integer_from_int (i : Int) : FromIntRes :=
  if SMALLINT_MIN ≤ i ∧ i ≤ SMALLINT_MAX then FromIntRes.small (integer_from_small i)
  else FromIntRes.bigCall i

/-! ### Reference counts in `integer_max` / `integer_min` (big path)

The reference counts of the two operands are tracked explicitly.
`integer_incref`/`integer_decref` adjust a count by one.  The comparison
(`integer_gte`/`integer_lte`, which on this path reaches
`integer_cmp_generic`) consumes one reference of each operand.
Modelled from the spec: `integer_cmp_generic` is external (its definition is
not in the sources); the boundary contract says every generic operation
consumes each integer-typed argument it receives. -/

structure RcState where
  x : Int
  y : Int
  deriving DecidableEq

def increfX (s : RcState) : RcState := ⟨s.x + 1, s.y⟩

def increfY (s : RcState) : RcState := ⟨s.x, s.y + 1⟩

def decrefX (s : RcState) : RcState := ⟨s.x - 1, s.y⟩

def decrefY (s : RcState) : RcState := ⟨s.x, s.y - 1⟩

/-- Modelled from the spec: the generic comparison consumes one reference of
each of its two integer arguments. -/
def cmpConsume (s : RcState) : RcState := decrefY (decrefX s)

/-- `integer_max`, big path (at least one big operand): incref both, compare
(consuming one reference of each), then decref exactly the loser and return
the winner.  The boolean `gte` is the comparison's outcome; the returned
boolean tells whether `x` is the result. -/
def integer_max_big (gte : Bool) (s : RcState) : Bool × RcState :=
  let s1 := cmpConsume (increfY (increfX s))
  if gte then (true, decrefY s1) else (false, decrefX s1)

/-- `integer_min`, big path, same shape with `lte`. -/
def integer_min_big (lte : Bool) (s : RcState) : Bool × RcState :=
  let s1 := cmpConsume (increfY (increfX s))
  if lte then (true, decrefY s1) else (false, decrefX s1)

/-! ### Helper lemmas -/

theorem is_smallint_box (n : Int) : is_smallint (box_int n) = true := by
  simp [is_smallint, box_int]
  omega

theorem is_smallint_big {w : Int} (hw : w % 4 = 0) : is_smallint w = false := by
  simp [is_smallint]
  omega

theorem are_smallints_box (m n : Int) :
    are_smallints (box_int m) (box_int n) = true := by
  simp [are_smallints, box_int]
  omega

theorem wrap32_self {z : Int} (h1 : -2147483648 ≤ z) (h2 : z < 2147483648) :
    wrap 32 z = z := by
  unfold wrap
  norm_num
  omega

theorem wrap32_ne {z : Int} (h : z < -2147483648 ∨ 2147483648 ≤ z) :
    wrap 32 z ≠ z := by
  unfold wrap
  norm_num
  omega

theorem smallint_add_ovf_eval {h y : Int}
    (hh1 : -2147483648 ≤ h) (hh2 : h < 2147483648)
    (hy1 : -2147483648 ≤ y) (hy2 : y < 2147483648) :
    smallint_add_ovf h y = (wrap 32 (h + y), decide (wrap 32 (h + y) ≠ h + y)) := by
  simp only [smallint_add_ovf]
  rw [wrap32_self hh1 hh2, wrap32_self hy1 hy2]

theorem smallint_sub_ovf_eval {h y : Int}
    (hh1 : -2147483648 ≤ h) (hh2 : h < 2147483648)
    (hy1 : -2147483648 ≤ y) (hy2 : y < 2147483648) :
    smallint_sub_ovf h y = (wrap 32 (h - y), decide (wrap 32 (h - y) ≠ h - y)) := by
  simp only [smallint_sub_ovf]
  rw [wrap32_self hh1 hh2, wrap32_self hy1 hy2]

theorem smallint_mul_ovf_eval {h y : Int}
    (hh1 : -2147483648 ≤ h) (hh2 : h < 2147483648)
    (hy1 : -2147483648 ≤ y) (hy2 : y < 2147483648) :
    smallint_mul_ovf h y = (wrap 32 (h * y), decide (wrap 32 (h * y) ≠ h * y)) := by
  simp only [smallint_mul_ovf]
  rw [wrap32_self hh1 hh2, wrap32_self hy1 hy2]

theorem xor1_box (n : Int) : xor1 (box_int n) = 4 * n := by
  unfold xor1 box_int
  split_ifs <;> omega

/-! ### Claim theorems -/

/-- C1: the claim says division and modulo by zero report a fault for every
dividend, regardless of representation.  The dispatchers `integer_div`,
`integer_mod` and `integer_div_mod` test only `are_smallints`, with no
zero-divisor check, so for the Small dividend `boxed(1) = 5` and the Small
zero divisor `boxed(0) = 1` they enter the fast path and execute the native
division `i/j` with `j = 0` — undefined behavior, not a reported fault. -/
theorem integer_div_zero_divisor_small_path :
    integer_div (box_int 1) (box_int 0) = DivRes.nativeDivByZero 5 1
    ∧ integer_mod (box_int 1) (box_int 0) = DivRes.nativeDivByZero 5 1
    ∧ integer_div_mod (box_int 1) (box_int 0) = (DivRes.nativeDivByZero 5 1, none) := by
  decide

/-- C2: the claim says `integer_is_even` on `boxed(n) = 4*n + 1` returns
true iff `n` is even.  The code tests bit 3 (`x & 0x08`), which under this
encoding is bit 1 of `n`, not its parity bit (bit 2 of the word): for the
even `n = 2` (word 9) it returns false, and for the odd `n = 1` (word 5) it
returns true.  (`integer_is_odd` is indeed the exact negation of the same
test.) -/
theorem integer_is_even_bit3_deviation :
    integer_is_even (box_int 2) = ParityRes.val false
    ∧ (2 : Int) % 2 = 0
    ∧ integer_is_even (box_int 1) = ParityRes.val true
    ∧ (1 : Int) % 2 = 1
    ∧ integer_is_odd (box_int 2) = ParityRes.val true
    ∧ integer_is_odd (box_int 1) = ParityRes.val false := by
  decide

/-- C5: on the big path of `integer_max`/`integer_min`, for either outcome of
the comparison, the returned operand's reference count is unchanged and the
losing operand's count is decremented exactly once: both operands are
incremented, the comparison consumes one reference of each, and exactly the
loser is decremented. -/
theorem integer_max_min_big_refcount (b : Bool) (s : RcState) :
    integer_max_big b s
      = (b, if b then RcState.mk s.x (s.y - 1) else RcState.mk (s.x - 1) s.y)
    ∧ integer_min_big b s
      = (b, if b then RcState.mk s.x (s.y - 1) else RcState.mk (s.x - 1) s.y) := by
  cases b <;>
    simp [integer_max_big, integer_min_big, cmpConsume, increfX, increfY, decrefX, decrefY]

/-- C9: `integer_from_int` chooses the Small constructor exactly when
`SMALLINT_MIN ≤ i ≤ SMALLINT_MAX` and otherwise delegates to
`integer_from_big`; every Small construction decodes back to `i` and is
Small-classified, and at the boundary `SMALLINT_MAX` classifies Small while
`SMALLINT_MAX + 1` classifies Big. -/
theorem integer_from_int_spec :
    (∀ i : Int, integer_from_int i =
      if SMALLINT_MIN ≤ i ∧ i ≤ SMALLINT_MAX then FromIntRes.small (integer_from_small i)
      else FromIntRes.bigCall i)
    ∧ (∀ i : Int, unbox_int (integer_from_small i) = i)
    ∧ (∀ i : Int, is_smallint (integer_from_small i) = true)
    ∧ integer_from_int SMALLINT_MAX = FromIntRes.small (box_int SMALLINT_MAX)
    ∧ integer_from_int (SMALLINT_MAX + 1) = FromIntRes.bigCall (SMALLINT_MAX + 1) := by
  refine ⟨fun i => rfl, fun i => ?_, fun i => is_smallint_box i, by decide, by decide⟩
  unfold unbox_int sar integer_from_small box_int
  omega

/-- C8: `integer_is_zero`/`is_one`/`is_minus_one` always consume their
argument: on a Small argument `boxed(n)` they return whether `n` is 0, 1 or
-1 with a zero reference-count delta, and on a Big argument (pointer word,
low two bits `00`) they return false and decrement the argument's count
exactly once. -/
theorem integer_sentinel_predicates_consume (n w : Int)
    (hn1 : SMALLINT_MIN ≤ n) (hn2 : n ≤ SMALLINT_MAX) (hw : w % 4 = 0) :
    integer_is_zero (box_int n) = (decide (n = 0), 0)
    ∧ integer_is_one (box_int n) = (decide (n = 1), 0)
    ∧ integer_is_minus_one (box_int n) = (decide (n = -1), 0)
    ∧ integer_is_zero w = (false, -1)
    ∧ integer_is_one w = (false, -1)
    ∧ integer_is_minus_one w = (false, -1) := by
  unfold integer_is_zero integer_is_one integer_is_minus_one
  rw [is_smallint_big hw]
  simp only [is_smallint_box, if_true, Bool.false_eq_true, if_false]
  refine ⟨?_, ?_, ?_, trivial, trivial, trivial⟩ <;>
    · simp only [Prod.mk.injEq, and_true]
      rw [decide_eq_decide]
      simp only [integer_from_small, box_int]
      omega

theorem integer_sentinel_predicates_consume_witness :
    SMALLINT_MIN ≤ 1 ∧ (1 : Int) ≤ SMALLINT_MAX ∧ (8 : Int) % 4 = 0
    ∧ (integer_is_zero (box_int 1) = (decide ((1 : Int) = 0), 0)
       ∧ integer_is_one (box_int 1) = (decide ((1 : Int) = 1), 0)
       ∧ integer_is_minus_one (box_int 1) = (decide ((1 : Int) = -1), 0)
       ∧ integer_is_zero 8 = (false, -1)
       ∧ integer_is_one 8 = (false, -1)
       ∧ integer_is_minus_one 8 = (false, -1)) :=
  ⟨by decide, by decide, by decide,
   integer_sentinel_predicates_consume 1 8 (by decide) (by decide) (by decide)⟩

/-- C6: for Small operands the encoded words `boxed(m) = 4*m + 1` and
`boxed(n) = 4*n + 1` are compared directly, and this preserves the numeric
order: `integer_cmp` returns -1/0/1 as `m < n` / `m = n` / `m > n`, and each
relational operation returns the corresponding mathematical relation. -/
theorem integer_small_cmp_order (m n : Int)
    (hm1 : SMALLINT_MIN ≤ m) (hm2 : m ≤ SMALLINT_MAX)
    (hn1 : SMALLINT_MIN ≤ n) (hn2 : n ≤ SMALLINT_MAX) :
    integer_cmp (box_int m) (box_int n)
      = Sum.inl (if m < n then -1 else if m = n then 0 else 1)
    ∧ integer_lt (box_int m) (box_int n) = Sum.inl (decide (m < n))
    ∧ integer_lte (box_int m) (box_int n) = Sum.inl (decide (m ≤ n))
    ∧ integer_gt (box_int m) (box_int n) = Sum.inl (decide (m > n))
    ∧ integer_gte (box_int m) (box_int n) = Sum.inl (decide (m ≥ n))
    ∧ integer_eq (box_int m) (box_int n) = Sum.inl (decide (m = n))
    ∧ integer_neq (box_int m) (box_int n) = Sum.inl (decide (m ≠ n)) := by
  unfold integer_cmp integer_lt integer_lte integer_gt integer_gte integer_eq integer_neq
  rw [are_smallints_box]
  simp only [if_true]
  unfold box_int
  refine ⟨?_, ?_, ?_, ?_, ?_, ?_, ?_⟩
  · congr 1
    split_ifs <;> omega
  all_goals
    · congr 1
      rw [decide_eq_decide]
      constructor <;> intro h <;> omega

theorem integer_small_cmp_order_witness :
    SMALLINT_MIN ≤ 1 ∧ (1 : Int) ≤ SMALLINT_MAX
    ∧ SMALLINT_MIN ≤ 2 ∧ (2 : Int) ≤ SMALLINT_MAX
    ∧ (integer_cmp (box_int 1) (box_int 2)
        = Sum.inl (if (1 : Int) < 2 then -1 else if (1 : Int) = 2 then 0 else 1)
       ∧ integer_lt (box_int 1) (box_int 2) = Sum.inl (decide ((1 : Int) < 2))
       ∧ integer_lte (box_int 1) (box_int 2) = Sum.inl (decide ((1 : Int) ≤ 2))
       ∧ integer_gt (box_int 1) (box_int 2) = Sum.inl (decide ((1 : Int) > 2))
       ∧ integer_gte (box_int 1) (box_int 2) = Sum.inl (decide ((1 : Int) ≥ 2))
       ∧ integer_eq (box_int 1) (box_int 2) = Sum.inl (decide ((1 : Int) = 2))
       ∧ integer_neq (box_int 1) (box_int 2) = Sum.inl (decide ((1 : Int) ≠ 2))) :=
  ⟨by decide, by decide, by decide, by decide,
   integer_small_cmp_order 1 2 (by decide) (by decide) (by decide) (by decide)⟩

/-- C10: `integer_neg` on a Small argument `boxed(n)` performs the fast
subtraction `integer_sub_small(boxed(0), x)` and yields exactly `boxed(-n)`
whenever `-n` is Small-representable; in the single boundary case
`n = SMALLINT_MIN` the overflow check fires and the call falls back to the
generic subtraction on the original operands, so negation never wraps. -/
theorem integer_neg_small_spec (n : Int)
    (h1 : SMALLINT_MIN ≤ n) (h2 : n ≤ SMALLINT_MAX) :
    integer_neg (box_int n) =
      if n = SMALLINT_MIN then IRes.subGeneric (box_int 0) (box_int n)
      else IRes.ok (box_int (-n)) := by
  rw [SMALLINT_MIN_eq] at h1 ⊢
  rw [SMALLINT_MAX_eq] at h2
  unfold integer_neg
  rw [if_pos (is_smallint_box n)]
  show integer_sub_small (box_int 0) (box_int n) = _
  unfold integer_sub_small
  rw [xor1_box]
  rw [smallint_sub_ovf_eval (by decide) (by decide) (by omega) (by omega)]
  by_cases hb : n = -536870912
  · subst hb
    rw [if_neg]
    · rfl
    · simp only [decide_eq_false_iff_not, Decidable.not_not]
      show ¬ (wrap 32 _ = _)
      exact wrap32_ne (by norm_num [box_int])
  · rw [if_pos, if_neg hb]
    · have hw : wrap 32 (box_int 0 - 4 * n) = 4 * (-n) + 1 := by
        rw [show box_int 0 - 4 * n = 4 * (-n) + 1 by unfold box_int; ring]
        exact wrap32_self (by omega) (by omega)
      rw [hw]
      rfl
    · simp only [decide_eq_false_iff_not, ne_eq, Decidable.not_not]
      rw [show box_int 0 - 4 * n = 4 * (-n) + 1 by unfold box_int; ring]
      exact wrap32_self (by omega) (by omega)

theorem integer_neg_small_spec_witness :
    SMALLINT_MIN ≤ 5 ∧ (5 : Int) ≤ SMALLINT_MAX
    ∧ integer_neg (box_int 5) =
        (if (5 : Int) = SMALLINT_MIN then IRes.subGeneric (box_int 0) (box_int 5)
         else IRes.ok (box_int (-5))) :=
  ⟨by decide, by decide, integer_neg_small_spec 5 (by decide) (by decide)⟩

theorem unbox_box (n : Int) : unbox_int (box_int n) = n := by
  unfold unbox_int sar box_int
  omega

theorem sar1_box (n : Int) : sar (box_int n) 1 = 2 * n := by
  unfold sar box_int
  omega

theorem or1_even {w : Int} (h : w % 2 = 0) : or1 w = w + 1 := by
  unfold or1
  rw [if_pos h]

theorem xor3_two (s : Int) : xor3 (4 * s + 2) = 4 * s + 1 := by
  unfold xor3
  omega

theorem smallint_add_ovf_mod4 (x y : Int) :
    (smallint_add_ovf x y).1 % 4 = (x + y) % 4 := by
  simp only [smallint_add_ovf]
  unfold wrap
  norm_num
  omega

theorem integer_add_small_box (a b : Int)
    (ha1 : -536870912 ≤ a) (ha2 : a ≤ 536870911)
    (hb1 : -536870912 ≤ b) (hb2 : b ≤ 536870911) :
    integer_add_small (box_int a) (box_int b)
      = if -536870912 ≤ a + b ∧ a + b ≤ 536870911 then IRes.ok (box_int (a + b))
        else IRes.addGeneric (box_int a) (box_int b) := by
  unfold integer_add_small
  rw [xor1_box]
  rw [smallint_add_ovf_eval (by unfold box_int; omega) (by unfold box_int; omega)
    (by omega : (-2147483648 : Int) ≤ 4 * b) (by omega : (4 * b : Int) < 2147483648)]
  have hs : box_int a + 4 * b = 4 * (a + b) + 1 := by
    unfold box_int
    ring
  rw [hs]
  by_cases hc : -536870912 ≤ a + b ∧ a + b ≤ 536870911
  · rw [wrap32_self (by omega) (by omega), if_pos, if_pos hc]
    · show IRes.ok _ = IRes.ok _
      unfold box_int
      rfl
    · simp
  · rw [if_neg, if_neg hc]
    simpa using wrap32_ne (z := 4 * (a + b) + 1) (by omega)

theorem integer_sub_small_box (a b : Int)
    (ha1 : -536870912 ≤ a) (ha2 : a ≤ 536870911)
    (hb1 : -536870912 ≤ b) (hb2 : b ≤ 536870911) :
    integer_sub_small (box_int a) (box_int b)
      = if -536870912 ≤ a - b ∧ a - b ≤ 536870911 then IRes.ok (box_int (a - b))
        else IRes.subGeneric (box_int a) (box_int b) := by
  unfold integer_sub_small
  rw [xor1_box]
  rw [smallint_sub_ovf_eval (by unfold box_int; omega) (by unfold box_int; omega)
    (by omega : (-2147483648 : Int) ≤ 4 * b) (by omega : (4 * b : Int) < 2147483648)]
  have hs : box_int a - 4 * b = 4 * (a - b) + 1 := by
    unfold box_int
    ring
  rw [hs]
  by_cases hc : -536870912 ≤ a - b ∧ a - b ≤ 536870911
  · rw [wrap32_self (by omega) (by omega), if_pos, if_pos hc]
    · show IRes.ok _ = IRes.ok _
      unfold box_int
      rfl
    · simp
  · rw [if_neg, if_neg hc]
    simpa using wrap32_ne (z := 4 * (a - b) + 1) (by omega)

theorem integer_mul_small_box (a b : Int)
    (ha1 : -536870912 ≤ a) (ha2 : a ≤ 536870911)
    (hb1 : -536870912 ≤ b) (hb2 : b ≤ 536870911) :
    integer_mul_small (box_int a) (box_int b)
      = if -536870912 ≤ a * b ∧ a * b ≤ 536870911 then IRes.ok (box_int (a * b))
        else IRes.mulGeneric (box_int a) (box_int b) := by
  simp only [integer_mul_small]
  rw [sar1_box, sar1_box]
  rw [smallint_mul_ovf_eval (by omega : (-2147483648 : Int) ≤ 2 * a)
    (by omega : (2 * a : Int) < 2147483648)
    (by omega : (-2147483648 : Int) ≤ 2 * b) (by omega : (2 * b : Int) < 2147483648)]
  have hs : 2 * a * (2 * b) = 4 * (a * b) := by ring
  rw [hs]
  by_cases hc : -536870912 ≤ a * b ∧ a * b ≤ 536870911
  · rw [wrap32_self (by omega) (by omega), if_pos, if_pos hc]
    · show IRes.ok _ = IRes.ok _
      rw [or1_even (by omega)]
      unfold box_int
      rfl
    · simp
  · rw [if_neg, if_neg hc]
    simpa using wrap32_ne (z := 4 * (a * b)) (by omega)

/-- C3: for Small-representable `m` and `n`, the fast-path operations on
`boxed(m)` and `boxed(n)` return the exact encoded result `boxed(m+n)` /
`boxed(m-n)` / `boxed(m*n)` whenever that result is Small-representable, and
otherwise fall back to the corresponding generic operation applied to the
original unmodified operand words. -/
theorem integer_fast_small_exact (m n : Int)
    (hm1 : SMALLINT_MIN ≤ m) (hm2 : m ≤ SMALLINT_MAX)
    (hn1 : SMALLINT_MIN ≤ n) (hn2 : n ≤ SMALLINT_MAX) :
    integer_add_small (box_int m) (box_int n)
      = (if SMALLINT_MIN ≤ m + n ∧ m + n ≤ SMALLINT_MAX then IRes.ok (box_int (m + n))
         else IRes.addGeneric (box_int m) (box_int n))
    ∧ integer_sub_small (box_int m) (box_int n)
      = (if SMALLINT_MIN ≤ m - n ∧ m - n ≤ SMALLINT_MAX then IRes.ok (box_int (m - n))
         else IRes.subGeneric (box_int m) (box_int n))
    ∧ integer_mul_small (box_int m) (box_int n)
      = (if SMALLINT_MIN ≤ m * n ∧ m * n ≤ SMALLINT_MAX then IRes.ok (box_int (m * n))
         else IRes.mulGeneric (box_int m) (box_int n)) := by
  rw [SMALLINT_MIN_eq] at hm1 hn1
  rw [SMALLINT_MAX_eq] at hm2 hn2
  rw [SMALLINT_MIN_eq, SMALLINT_MAX_eq]
  exact ⟨integer_add_small_box m n hm1 hm2 hn1 hn2,
    integer_sub_small_box m n hm1 hm2 hn1 hn2,
    integer_mul_small_box m n hm1 hm2 hn1 hn2⟩

theorem integer_fast_small_exact_witness :
    SMALLINT_MIN ≤ 3 ∧ (3 : Int) ≤ SMALLINT_MAX
    ∧ SMALLINT_MIN ≤ 4 ∧ (4 : Int) ≤ SMALLINT_MAX
    ∧ (integer_add_small (box_int 3) (box_int 4)
        = (if SMALLINT_MIN ≤ (3 : Int) + 4 ∧ (3 : Int) + 4 ≤ SMALLINT_MAX
           then IRes.ok (box_int ((3 : Int) + 4))
           else IRes.addGeneric (box_int 3) (box_int 4))
       ∧ integer_sub_small (box_int 3) (box_int 4)
        = (if SMALLINT_MIN ≤ (3 : Int) - 4 ∧ (3 : Int) - 4 ≤ SMALLINT_MAX
           then IRes.ok (box_int ((3 : Int) - 4))
           else IRes.subGeneric (box_int 3) (box_int 4))
       ∧ integer_mul_small (box_int 3) (box_int 4)
        = (if SMALLINT_MIN ≤ (3 : Int) * 4 ∧ (3 : Int) * 4 ≤ SMALLINT_MAX
           then IRes.ok (box_int ((3 : Int) * 4))
           else IRes.mulGeneric (box_int 3) (box_int 4))) :=
  ⟨by decide, by decide, by decide, by decide,
   integer_fast_small_exact 3 4 (by decide) (by decide) (by decide) (by decide)⟩

theorem integer_add_box (a b : Int)
    (ha1 : -536870912 ≤ a) (ha2 : a ≤ 536870911)
    (hb1 : -536870912 ≤ b) (hb2 : b ≤ 536870911) :
    integer_add (box_int a) (box_int b) = integer_add_small (box_int a) (box_int b) := by
  rw [integer_add_small_box a b ha1 ha2 hb1 hb2]
  unfold integer_add
  rw [smallint_add_ovf_eval (by unfold box_int; omega) (by unfold box_int; omega)
    (by unfold box_int; omega) (by unfold box_int; omega)]
  have hs : box_int a + box_int b = 4 * (a + b) + 2 := by
    unfold box_int
    ring
  rw [hs]
  by_cases hc : -536870912 ≤ a + b ∧ a + b ≤ 536870911
  · rw [wrap32_self (by omega) (by omega), if_pos, if_pos hc]
    · show IRes.ok (xor3 (4 * (a + b) + 2)) = IRes.ok (box_int (a + b))
      rw [xor3_two]
      unfold box_int
      rfl
    · refine ⟨by simp, ?_⟩
      show testBit1 (4 * (a + b) + 2) = true
      simp only [testBit1, decide_eq_true_eq]
      omega
  · rw [if_neg, if_neg hc]
    rintro ⟨h1, -⟩
    exact absurd (by simpa using h1) (wrap32_ne (z := 4 * (a + b) + 2) (by omega))

/-- C4: the optimized `integer_add`, which adds the two encoded words
directly and inspects the low two bits of the sum afterwards, agrees with
the uniform dispatch rule — test `are_smallints` first, fast path on true,
`integer_add_generic` on the unmodified operands on false — for every pair
of valid integer words (Small or Big). -/
theorem integer_add_refines_dispatch (x y : Int) (hx : ValidInt x) (hy : ValidInt y) :
    integer_add x y = integer_add_dispatch x y := by
  unfold ValidInt at hx hy
  rw [SMALLINT_MIN_eq, SMALLINT_MAX_eq] at hx hy
  unfold integer_add_dispatch
  rcases hx with ⟨hx4, hxl, hxu⟩ | hx4
  · rcases hy with ⟨hy4, hyl, hyu⟩ | hy4
    · -- both operands are boxed small ints
      have hxe : x = box_int (unbox_int x) := by
        unfold box_int unbox_int sar
        omega
      have hye : y = box_int (unbox_int y) := by
        unfold box_int unbox_int sar
        omega
      rw [if_pos]
      · rw [hxe, hye]
        exact integer_add_box (unbox_int x) (unbox_int y) hxl hxu hyl hyu
      · show are_smallints x y = true
        simp only [are_smallints, decide_eq_true_eq]
        omega
    · -- x small, y a bigint pointer: the low two bits of the sum are 01
      have hare : ¬ are_smallints x y = true := by
        simp only [are_smallints, decide_eq_true_eq, not_and]
        omega
      rw [if_neg hare]
      unfold integer_add
      rw [if_neg]
      rintro ⟨-, h2⟩
      have hm4 := smallint_add_ovf_mod4 x y
      rw [show testBit1 (smallint_add_ovf x y).1 = true ↔ 2 ≤ (smallint_add_ovf x y).1 % 4
        from by simp [testBit1]] at h2
      omega
  · rcases hy with ⟨hy4, hyl, hyu⟩ | hy4
    · -- x a bigint pointer, y small: the low two bits of the sum are 01
      have hare : ¬ are_smallints x y = true := by
        simp only [are_smallints, decide_eq_true_eq, not_and]
        omega
      rw [if_neg hare]
      unfold integer_add
      rw [if_neg]
      rintro ⟨-, h2⟩
      have hm4 := smallint_add_ovf_mod4 x y
      rw [show testBit1 (smallint_add_ovf x y).1 = true ↔ 2 ≤ (smallint_add_ovf x y).1 % 4
        from by simp [testBit1]] at h2
      omega
    · -- both bigint pointers: the low two bits of the sum are 00
      have hare : ¬ are_smallints x y = true := by
        simp only [are_smallints, decide_eq_true_eq, not_and]
        omega
      rw [if_neg hare]
      unfold integer_add
      rw [if_neg]
      rintro ⟨-, h2⟩
      have hm4 := smallint_add_ovf_mod4 x y
      rw [show testBit1 (smallint_add_ovf x y).1 = true ↔ 2 ≤ (smallint_add_ovf x y).1 % 4
        from by simp [testBit1]] at h2
      omega

theorem integer_add_refines_dispatch_witness :
    ValidInt (box_int 3) ∧ ValidInt 8
    ∧ integer_add (box_int 3) 8 = integer_add_dispatch (box_int 3) 8 := by
  have h1 : ValidInt (box_int 3) := box_int_valid 3 (by decide) (by decide)
  have h2 : ValidInt 8 := Or.inr (by decide)
  exact ⟨h1, h2, integer_add_refines_dispatch (box_int 3) 8 h1 h2⟩

theorem generic_ovf_core (W B : Nat) (z : Int) (hB : 1 ≤ B) (hBW : B ≤ W)
    (h1 : -(2 : Int) ^ (W - 1) ≤ z) (h2 : z < 2 ^ (W - 1)) :
    wrap W z = z
    ∧ ((1 < (toUnsigned W (sar z (B - 1)) + 1) % 2 ^ W)
        ↔ ¬(-(2 : Int) ^ (B - 1) ≤ z ∧ z < 2 ^ (B - 1))) := by
  have hM2 : (2 : Int) ^ W = 2 * 2 ^ (W - 1) := by
    conv_lhs => rw [show W = (W - 1) + 1 from by omega]
    rw [pow_succ']
  have hhalfpos : (0 : Int) < 2 ^ (W - 1) := pow_pos (by norm_num) _
  have hhalf1 : (1 : Int) ≤ 2 ^ (W - 1) := by
    simpa using Int.add_one_le_iff.mpr hhalfpos
  have hdpos : (0 : Int) < 2 ^ (B - 1) := pow_pos (by norm_num) _
  have hd1 : (1 : Int) ≤ 2 ^ (B - 1) := by
    simpa using Int.add_one_le_iff.mpr hdpos
  have hdhalf : (2 : Int) ^ (B - 1) ≤ 2 ^ (W - 1) :=
    pow_le_pow_right₀ one_le_two (by omega)
  unfold wrap toUnsigned sar
  constructor
  · rw [Int.emod_eq_of_lt (by linarith) (by linarith)]
    ring
  · have hqr : (2 : Int) ^ (B - 1) * (z / 2 ^ (B - 1)) + z % 2 ^ (B - 1) = z :=
      Int.ediv_add_emod z _
    have hr0 : 0 ≤ z % 2 ^ (B - 1) := Int.emod_nonneg z (ne_of_gt hdpos)
    have hrd : z % 2 ^ (B - 1) < 2 ^ (B - 1) := Int.emod_lt_of_pos z hdpos
    have hql : -(2 : Int) ^ (W - 1) ≤ z / 2 ^ (B - 1) := by
      by_contra hq'
      push_neg at hq'
      have hq2 : z / 2 ^ (B - 1) ≤ -(2 : Int) ^ (W - 1) - 1 := by
        linarith [Int.add_one_le_iff.mpr hq']
      have hmul : (2 : Int) ^ (B - 1) * (z / 2 ^ (B - 1))
          ≤ 2 ^ (B - 1) * (-(2 : Int) ^ (W - 1) - 1) :=
        mul_le_mul_of_nonneg_left hq2 hdpos.le
      have hexp : (2 : Int) ^ (B - 1) * (-(2 : Int) ^ (W - 1) - 1)
          = -(2 ^ (B - 1) * 2 ^ (W - 1)) - 2 ^ (B - 1) := by ring
      have hm2 : (2 : Int) ^ (W - 1) ≤ 2 ^ (B - 1) * 2 ^ (W - 1) :=
        le_mul_of_one_le_left hhalfpos.le hd1
      rw [hexp] at hmul
      linarith
    have hqu : z / 2 ^ (B - 1) ≤ (2 : Int) ^ (W - 1) - 1 := by
      by_contra hq'
      push_neg at hq'
      have hq2 : (2 : Int) ^ (W - 1) ≤ z / 2 ^ (B - 1) := by
        linarith [Int.add_one_le_iff.mpr hq']
      have hmul : (2 : Int) ^ (B - 1) * 2 ^ (W - 1)
          ≤ 2 ^ (B - 1) * (z / 2 ^ (B - 1)) :=
        mul_le_mul_of_nonneg_left hq2 hdpos.le
      have hm2 : (2 : Int) ^ (W - 1) ≤ 2 ^ (B - 1) * 2 ^ (W - 1) :=
        le_mul_of_one_le_left hhalfpos.le hd1
      linarith
    constructor
    · rintro hlt ⟨hz1, hz2⟩
      have hq01 : z / 2 ^ (B - 1) = 0 ∨ z / 2 ^ (B - 1) = -1 := by
        rcases lt_or_le (z / 2 ^ (B - 1)) (-1) with hlt' | hge
        · exfalso
          have hq2 : z / 2 ^ (B - 1) ≤ -2 := by
            linarith [Int.add_one_le_iff.mpr hlt']
          have hmul : (2 : Int) ^ (B - 1) * (z / 2 ^ (B - 1))
              ≤ 2 ^ (B - 1) * (-2) :=
            mul_le_mul_of_nonneg_left hq2 hdpos.le
          linarith
        · rcases lt_or_le (z / 2 ^ (B - 1)) 1 with h01 | hge1
          · have hle0 : z / 2 ^ (B - 1) ≤ 0 := by
              linarith [Int.add_one_le_iff.mpr h01]
            rcases eq_or_lt_of_le hge with he | hl
            · exact Or.inr he.symm
            · left
              have : 0 ≤ z / 2 ^ (B - 1) := by
                linarith [Int.add_one_le_iff.mpr hl]
              linarith
          · exfalso
            have hmul : (2 : Int) ^ (B - 1) * 1 ≤ 2 ^ (B - 1) * (z / 2 ^ (B - 1)) :=
              mul_le_mul_of_nonneg_left hge1 hdpos.le
            linarith
      rcases hq01 with h0 | h0
      · rw [h0, Int.zero_emod, zero_add,
          Int.emod_eq_of_lt (by norm_num) (by linarith)] at hlt
        exact absurd hlt (by norm_num)
      · rw [h0] at hlt
        have e : ((-1 : Int) + 2 ^ W) % 2 ^ W = (-1 : Int) % 2 ^ W := by
          simp [Int.add_mul_emod_self_left]
        have hm1 : (-1 : Int) % 2 ^ W = -1 + 2 ^ W := by
          rw [← e]
          exact Int.emod_eq_of_lt (by linarith) (by linarith)
        rw [hm1, show (-1 : Int) + 2 ^ W + 1 = 2 ^ W from by ring, Int.emod_self] at hlt
        exact absurd hlt (by norm_num)
    · intro hnot
      push_neg at hnot
      rcases lt_or_le z (-(2 : Int) ^ (B - 1)) with hz | hz
      · have hqneg : z / 2 ^ (B - 1) ≤ -2 := by
          have h' : (2 : Int) ^ (B - 1) * (z / 2 ^ (B - 1)) < 2 ^ (B - 1) * (-1) := by
            linarith
          have h'' := lt_of_mul_lt_mul_left h' hdpos.le
          linarith [Int.add_one_le_iff.mpr h'']
        have e : (z / 2 ^ (B - 1) + 2 ^ W) % 2 ^ W = (z / 2 ^ (B - 1)) % 2 ^ W := by
          simp [Int.add_mul_emod_self_left]
        have hs : (z / 2 ^ (B - 1)) % 2 ^ W = z / 2 ^ (B - 1) + 2 ^ W := by
          rw [← e]
          exact Int.emod_eq_of_lt (by linarith) (by linarith)
        rw [hs, Int.emod_eq_of_lt (by linarith) (by linarith)]
        linarith
      · have hzd : (2 : Int) ^ (B - 1) ≤ z := hnot hz
        have hq1 : 1 ≤ z / 2 ^ (B - 1) := by
          by_contra h'
          push_neg at h'
          have h0 : z / 2 ^ (B - 1) ≤ 0 := by
            linarith [Int.add_one_le_iff.mpr h']
          have hmul : (2 : Int) ^ (B - 1) * (z / 2 ^ (B - 1)) ≤ 2 ^ (B - 1) * 0 :=
            mul_le_mul_of_nonneg_left h0 hdpos.le
          linarith
        have hs : (z / 2 ^ (B - 1)) % 2 ^ W = z / 2 ^ (B - 1) :=
          Int.emod_eq_of_lt (by linarith) (by linarith)
        rw [hs, Int.emod_eq_of_lt (by linarith) (by linarith)]
        linarith

/-- C7: the generic (non-builtin) overflow checks perform the operation at
full native width `W`; whenever the exact result is representable at width
`W`, they store exactly that result in `*r`, and they return no-overflow
precisely when the result lies in the signed `SMALLINT_BITS = B` range (the
bits above the small-value width form a uniform sign-extension run). -/
theorem smallint_ovf_generic_spec (W B : Nat) (x y : Int)
    (hB : 1 ≤ B) (hBW : B ≤ W) :
    (-(2 : Int) ^ (W - 1) ≤ x + y → x + y < 2 ^ (W - 1) →
      smallint_add_ovf_generic W B x y
        = (x + y, decide (¬(-(2 : Int) ^ (B - 1) ≤ x + y ∧ x + y < 2 ^ (B - 1)))))
    ∧ (-(2 : Int) ^ (W - 1) ≤ x - y → x - y < 2 ^ (W - 1) →
      smallint_sub_ovf_generic W B x y
        = (x - y, decide (¬(-(2 : Int) ^ (B - 1) ≤ x - y ∧ x - y < 2 ^ (B - 1)))))
    ∧ (-(2 : Int) ^ (W - 1) ≤ x * y → x * y < 2 ^ (W - 1) →
      smallint_mul_ovf_generic W B x y
        = (x * y, decide (¬(-(2 : Int) ^ (B - 1) ≤ x * y ∧ x * y < 2 ^ (B - 1))))) := by
  refine ⟨fun h1 h2 => ?_, fun h1 h2 => ?_, fun h1 h2 => ?_⟩ <;>
    · obtain ⟨e1, e2⟩ := generic_ovf_core W B _ hB hBW h1 h2
      simp only [smallint_add_ovf_generic, smallint_sub_ovf_generic,
        smallint_mul_ovf_generic]
      rw [e1]
      congr 1
      rw [decide_eq_decide]
      exact e2

theorem smallint_ovf_generic_spec_witness :
    smallint_add_ovf_generic 32 16 20000 20000
      = ((20000 : Int) + 20000,
         decide (¬(-(2 : Int) ^ (16 - 1) ≤ (20000 : Int) + 20000
                   ∧ (20000 : Int) + 20000 < 2 ^ (16 - 1))))
    ∧ smallint_sub_ovf_generic 32 16 20000 20000
      = ((20000 : Int) - 20000,
         decide (¬(-(2 : Int) ^ (16 - 1) ≤ (20000 : Int) - 20000
                   ∧ (20000 : Int) - 20000 < 2 ^ (16 - 1))))
    ∧ smallint_mul_ovf_generic 32 16 20000 20000
      = ((20000 : Int) * 20000,
         decide (¬(-(2 : Int) ^ (16 - 1) ≤ (20000 : Int) * 20000
                   ∧ (20000 : Int) * 20000 < 2 ^ (16 - 1)))) :=
  ⟨(smallint_ovf_generic_spec 32 16 20000 20000 (by decide) (by decide)).1
     (by decide) (by decide),
   (smallint_ovf_generic_spec 32 16 20000 20000 (by decide) (by decide)).2.1
     (by decide) (by decide),
   (smallint_ovf_generic_spec 32 16 20000 20000 (by decide) (by decide)).2.2
     (by decide) (by decide)⟩

end Koka
